import Mathlib

/-!
Verification development for the cleanvid scrub-and-mux engine
(`src/cleanvid/cleanvid.py`).

The definitions below are a shallow embedding of the parts of
`VidCleaner.CreateCleanSubAndMuteList` and `VidCleaner.MultiplexCleanVideo`
that the properties under study talk about.  Subtitle timestamps are
modelled at the millisecond-ordinal level (`pysrt` stores every
`SubRipTime` as an integer millisecond ordinal); external tool runs are
modelled by their observable outcome.  Python integer division and modulo
on non-negative divisors agree with Lean `Int` division (`Int.ediv` /
`Int.emod`), which is what `/` and `%` denote on `Int` here.
-/

namespace Cleanvid

/-- A `datetime.time` value as produced by `pysrt.SubRipTime.to_time()`:
hour, minute, second and microsecond components. -/
structure PyTime where
  hour : Int
  minute : Int
  second : Int
  microsecond : Int
deriving Repr, DecidableEq

/-- Models `pysrt.SubRipTime.from_ordinal(o).to_time()` for a millisecond
ordinal `o`.  pysrt computes the components with Python floor
division/modulo (`hours = o // 3600000`, `minutes = (o % 3600000) //
60000`, `seconds = (o % 60000) // 1000`, `milliseconds = o % 1000`,
`microsecond = milliseconds * 1000`); there is no clamping in
`from_ordinal`.  `datetime.time` then validates its arguments and raises
`ValueError` when the hour falls outside `0..23` (which happens exactly
when `o` is negative or at least 24 hours). -/
def subRipOrdinalToTime (o : Int) : Except String PyTime :=
  if 0 ≤ o / 3600000 ∧ o / 3600000 ≤ 23 then
    Except.ok ⟨o / 3600000, o % 3600000 / 60000, o % 60000 / 1000, o % 1000 * 1000⟩
  else Except.error "hour must be in 0..23"

/-- The `seconds` component property of a `pysrt.SubRipTime` with
millisecond ordinal `o`: `(o % 60000) // 1000`.  Used by the source when
it builds the trailing dummy subtitle from `subs[-1].end.seconds`. -/
def secondsComponent (o : Int) : Int := o % 60000 / 1000

/-- The millisecond value of the seconds count computed in the mute-list
loop, `hour*3600 + minute*60 + second + microsecond/1000000`, scaled by
1000.  For every time produced by `subRipOrdinalToTime` the microsecond
field is a multiple of 1000, so this is exact. -/
def timeToMs (t : PyTime) : Int :=
  t.hour * 3600000 + t.minute * 60000 + t.second * 1000 + t.microsecond / 1000

/-- One subtitle cue: start/end millisecond ordinals plus text. -/
structure Cue where
  startMs : Int
  endMs : Int
  text : String
deriving Repr, DecidableEq

/-- The dummy subtitle appended before the scrub loop:
`pysrt.SubRipItem(index=len(subs)+1, start=(subs[-1].end.seconds if subs
else 0) + 1, end=(subs[-1].end.seconds if subs else 0) + 2, text='Fin')`.
`SubRipTime.coerce` treats the integer arguments as millisecond ordinals
(`from_ordinal`), so the dummy lives within the first minute of the
timeline regardless of where the real cues end. -/
def dummyCue (subs : List Cue) : Cue :=
  let base : Int :=
    match subs.getLast? with
    | some c => secondsComponent c.endMs
    | none => 0
  ⟨base + 1, base + 2, "Fin"⟩

/-- `pairwise` from the source (an itertools recipe): adjacent pairs of a
list. -/
def pairwise {α : Type} (l : List α) : List (α × α) := l.zip l.tail

/-- The per-job settings consumed by `CreateCleanSubAndMuteList`:
`swearsPadMillisec`, `fullSubs`, and whether a JSON dump list exists. -/
structure ScrubCfg where
  padMs : Int
  fullSubs : Bool
  jsonDump : Bool
deriving Repr, DecidableEq

/-- Loop state of the scrub pass.  `kept` records, for each cue the loop
kept, the original cue together with its `subScrubbed` flag (bookkeeping
that mirrors which branch of the loop body ran; the source keeps the same
information implicitly in `newSubs`/`newTimestampPairs`). -/
structure ScrubState where
  prevNaughty : Option Cue
  newSubs : List Cue
  kept : List (Cue × Bool)
  pairs : List (PyTime × PyTime)
  edits : List (String × String)
deriving Repr, DecidableEq

/-- One iteration of the scrub loop over `pairwise(subs)`.  `r` is the
whole-word, case-insensitive dictionary replacement
`replacer.sub(lambda x: swearsMap[x.group()], text)` applied to a cue
text. -/
def scrubStep (cfg : ScrubCfg) (r : String → String) (st : ScrubState) (p : Cue × Cue) :
    Except String ScrubState :=
  let sub := p.1
  let subPeek := p.2
  let newText := r sub.text
  let newTextPeek := r subPeek.text
  let peekNaughtyClose : Bool :=
    (newTextPeek != subPeek.text) && decide (subPeek.startMs - sub.endMs ≤ cfg.padMs)
  let prevNaughtyClose : Bool :=
    match st.prevNaughty with
    | some prev => decide (sub.startMs - prev.endMs ≤ cfg.padMs)
    | none => false
  let keep : Bool :=
    (newText != sub.text) || (decide (0 < cfg.padMs) && (peekNaughtyClose || prevNaughtyClose))
  if keep then
    let subScrubbed : Bool := newText != sub.text
    let edits :=
      if subScrubbed && cfg.jsonDump then st.edits ++ [(sub.text, newText)] else st.edits
    let newSubs := st.newSubs ++ [Cue.mk sub.startMs sub.endMs newText]
    if subScrubbed then
      match subRipOrdinalToTime (sub.startMs - cfg.padMs),
            subRipOrdinalToTime (sub.endMs + cfg.padMs) with
      | Except.ok t1, Except.ok t2 =>
          Except.ok ⟨some sub, newSubs, st.kept ++ [(sub, true)], st.pairs ++ [(t1, t2)], edits⟩
      | Except.error e, _ => Except.error e
      | _, Except.error e => Except.error e
    else
      match subRipOrdinalToTime sub.startMs, subRipOrdinalToTime sub.endMs with
      | Except.ok t1, Except.ok t2 =>
          Except.ok ⟨none, newSubs, st.kept ++ [(sub, false)], st.pairs ++ [(t1, t2)], edits⟩
      | Except.error e, _ => Except.error e
      | _, Except.error e => Except.error e
  else
    Except.ok ⟨none, (if cfg.fullSubs then st.newSubs ++ [sub] else st.newSubs),
      st.kept, st.pairs, st.edits⟩

/-- The scrub loop: fold `scrubStep` over the pair list, propagating the
first raised error. -/
def scrubFold (cfg : ScrubCfg) (r : String → String) :
    List (Cue × Cue) → ScrubState → Except String ScrubState
  | [], st => Except.ok st
  | p :: rest, st =>
    match scrubStep cfg r st p with
    | Except.ok st2 => scrubFold cfg r rest st2
    | Except.error e => Except.error e

/-- The observable result of `CreateCleanSubAndMuteList` before the filter
loop: new cue list, keep decisions, the kept timestamp pairs, the JSON
edit list, and the start time of the sentinel pair appended at the end
(`[from_ordinal(subs[-1].end.ordinal).to_time(), None]`; its `None`
member is never read by the filter loop). -/
structure TimelineResult where
  newSubs : List Cue
  kept : List (Cue × Bool)
  realPairs : List (PyTime × PyTime)
  edits : List (String × String)
  sentinelStart : PyTime
deriving Repr, DecidableEq

/-- Initial loop state. -/
def initialScrubState : ScrubState := ⟨none, [], [], [], []⟩

/-- `CreateCleanSubAndMuteList` up to (and including) appending the
sentinel timestamp pair: append the dummy cue, run the scrub loop over
adjacent pairs, then append the sentinel whose start is the dummy cue's
end ordinal converted through `to_time()`. -/
def createCleanSubAndMuteList (cfg : ScrubCfg) (r : String → String) (subs : List Cue) :
    Except String TimelineResult :=
  let allSubs := subs ++ [dummyCue subs]
  match scrubFold cfg r (pairwise allSubs) initialScrubState with
  | Except.error e => Except.error e
  | Except.ok st =>
    match subRipOrdinalToTime (dummyCue subs).endMs with
    | Except.error e => Except.error e
    | Except.ok sentinel => Except.ok ⟨st.newSubs, st.kept, st.pairs, st.edits, sentinel⟩

/-- The timestamp-pair list as the source stores it (each kept pair, then
the sentinel whose end member is `None`), reduced to millisecond values. -/
def allPairsMs (res : TimelineResult) : List (Int × Option Int) :=
  res.realPairs.map (fun p => (timeToMs p.1, some (timeToMs p.2)))
    ++ [(timeToMs res.sentinelStart, none)]

/-- Whether a list of integers is non-decreasing. -/
def nondecreasing : List Int → Bool
  | a :: b :: rest => decide (a ≤ b) && nondecreasing (b :: rest)
  | _ => true

/-- A cue list is time-ordered: every cue's start is at most its end, and
consecutive cues do not start out of order. -/
def timeOrderedCues : List Cue → Bool
  | [] => true
  | [c] => decide (c.startMs ≤ c.endMs)
  | c :: c2 :: rest =>
    decide (c.startMs ≤ c.endMs) && decide (c.startMs ≤ c2.startMs) &&
      timeOrderedCues (c2 :: rest)

/-- The decimal digit character for `n % 10`. -/
def digitChar (n : Nat) : Char := Char.ofNat (48 + n % 10)

/-- Zero-pad a natural number below 1000 to three digits (the fractional
part of a `'%.3f'` rendering). -/
def pad3 (n : Nat) : String :=
  String.mk [digitChar (n / 100), digitChar (n / 10), digitChar n]

/-- `format(ms / 1000.0, '.3f')`: seconds with exactly three decimal
places.  For the non-negative ordinals produced by the timeline this is
exact, because `ms / 1000` has exactly three decimal digits. -/
def fmtSec3 (ms : Int) : String :=
  toString (ms.toNat / 1000) ++ "." ++ pad3 (ms.toNat % 1000)

/-- `format(ms / 1000.0, '.1f')`: seconds rounded to one decimal place,
ties resolved to even (Python float formatting; exact decimal ties are
decided by the binary representation, which only matters when
`ms % 100 = 50`). -/
def fmtSec1 (ms : Int) : String :=
  let n := ms.toNat
  let q := n / 100
  let r := n % 100
  let tenths :=
    if r < 50 then q
    else if 50 < r then q + 1
    else if q % 2 == 0 then q else q + 1
  toString (tenths / 10) ++ "." ++ String.mk [digitChar tenths]

/-- One entry of `muteTimeList`: either an `afade` expression (its three
time fields rendered with `'%.3f'`, its fade direction, and the fixed
`d=10ms` crossfade), or the stereo downmix `pan=...` expression
`AUDIO_DOWNMIX_FILTER`. -/
inductive FilterStep where
  | afade (enableFrom enableTo fadeType st d : String)
  | downmix
deriving Repr, DecidableEq

/-- Output of the mute-list loop: the filter steps, the EDL rows
(`f"{format(lineStart, '.1f')}\t{format(lineEnd, '.3f')}\t1"`), and the
Plex markers (`round(lineStart * 1000.0)` / `round(lineEnd * 1000.0)`,
i.e. whole milliseconds). -/
structure SynthResult where
  muteTimeList : List FilterStep
  edlLines : List String
  plexMarkers : List (Int × Int)
deriving Repr, DecidableEq

/-- The `for timePair, timePairPeek in pairwise(newTimestampPairs)` loop.
The kept pairs are traversed in order; each iteration peeks at the next
pair's start, the final iteration peeking at the sentinel start.  Per
iteration it emits one fade-out over `[lineStart, lineEnd]`, one fade-in
over `[lineEnd, lineStartPeek]`, and (when enabled) one EDL row and one
Plex marker. -/
def synthLoop (edl plex : Bool) : List (PyTime × PyTime) → PyTime → SynthResult
  | [], _ => ⟨[], [], []⟩
  | (t1, t2) :: rest, sentinel =>
    let lineStart := timeToMs t1
    let lineEnd := timeToMs t2
    let lineStartPeek :=
      match rest with
      | [] => timeToMs sentinel
      | (n1, _) :: _ => timeToMs n1
    let tail := synthLoop edl plex rest sentinel
    ⟨FilterStep.afade (fmtSec3 lineStart) (fmtSec3 lineEnd) "out" (fmtSec3 lineStart) "10ms" ::
       FilterStep.afade (fmtSec3 lineEnd) (fmtSec3 lineStartPeek) "in" (fmtSec3 lineEnd) "10ms" ::
       tail.muteTimeList,
     (if edl then [fmtSec1 lineStart ++ "\t" ++ fmtSec3 lineEnd ++ "\t1"] else [])
       ++ tail.edlLines,
     (if plex then [(lineStart, lineEnd)] else []) ++ tail.plexMarkers⟩

/-- Standard path: `self.muteTimeList.insert(0, AUDIO_DOWNMIX_FILTER)`,
run when `self.aDownmix and HasAudioMoreThanStereo(...)` (the flag
argument here). -/
def insertDownmixStd (apply : Bool) (l : List FilterStep) : List FilterStep :=
  if apply then FilterStep.downmix :: l else l

/-- Windows path: the same insertion, guarded by
`if AUDIO_DOWNMIX_FILTER not in self.muteTimeList`. -/
def insertDownmixWin (apply : Bool) (l : List FilterStep) : List FilterStep :=
  if apply then (if FilterStep.downmix ∈ l then l else FilterStep.downmix :: l) else l

/-- One probed audio stream, reduced to the field the resolution logic
reads: its `index` entry (absent when ffprobe reported none). -/
structure AudioStream where
  index : Option Int
deriving Repr, DecidableEq

/-- The distinct `ValueError`s the stream-resolution code can raise. -/
inductive ResolveError where
  | noAudioStreams
  | cannotDetermineIndex
  | ambiguousStream
  | invalidStreamIndex
deriving Repr, DecidableEq

/-- Stream resolution of the standard (non-Windows) path
(`MultiplexCleanVideo`, the `audioStreamOnlyIndex` computation): with no
requested index, a single stream is taken at list position 0 and multiple
streams raise; with a requested index, it must equal some stream's
`index` entry (`stream.get('index', -1)`), and the result is that
stream's position in the probed audio list. -/
def resolveAudioStreamStd (streams : List AudioStream) (req : Option Int) :
    Except ResolveError Nat :=
  if 0 < streams.length then
    match req with
    | none =>
      if streams.length == 1 then
        match (streams.headD ⟨none⟩).index with
        | some _ => Except.ok 0
        | none => Except.error ResolveError.cannotDetermineIndex
      else Except.error ResolveError.ambiguousStream
    | some idx =>
      if streams.any (fun s => s.index.getD (-1) == idx) then
        Except.ok (streams.findIdx (fun s => s.index.getD (-1) == idx))
      else Except.error ResolveError.invalidStreamIndex
  else Except.error ResolveError.noAudioStreams

/-- Stream resolution of the Windows path: same logic, except that the
position lookup uses `stream.get('index')` (default `None`) with a
fallback of 0 when no stream matches. -/
def resolveAudioStreamWin (streams : List AudioStream) (req : Option Int) :
    Except ResolveError Nat :=
  if streams.isEmpty then Except.error ResolveError.noAudioStreams
  else
    match req with
    | none =>
      if streams.length == 1 then
        match (streams.headD ⟨none⟩).index with
        | some _ => Except.ok 0
        | none => Except.error ResolveError.cannotDetermineIndex
      else Except.error ResolveError.ambiguousStream
    | some idx =>
      if streams.any (fun s => s.index.getD (-1) == idx) then
        Except.ok
          (if streams.any (fun s => s.index == some idx) then
            streams.findIdx (fun s => s.index == some idx)
          else 0)
      else Except.error ResolveError.invalidStreamIndex

/-- The boolean job options read by the multiplex decision. -/
structure MuxFlags where
  reEncodeVideo : Bool
  reEncodeAudio : Bool
  hardCode : Bool
  embedSubs : Bool
  subsOnly : Bool
deriving Repr, DecidableEq

/-- The guard deciding whether any encode invocation is needed, taken
verbatim from both paths of `MultiplexCleanVideo`:
`reEncodeVideo or reEncodeAudio or hardCode or embedSubs or
((not subsOnly) and (len(muteTimeList) > 0))`. -/
def needsProcessing (f : MuxFlags) (muteTimeListLen : Nat) : Bool :=
  f.reEncodeVideo || f.reEncodeAudio || f.hardCode || f.embedSubs ||
    (!f.subsOnly && decide (0 < muteTimeListLen))

/-- Coarse plan outcome: either nothing runs and the video is marked
unaltered (`self.unalteredVideo = True`), or an encode pipeline runs. -/
inductive PlanKind where
  | noOpPassthrough
  | runsEncode
deriving Repr, DecidableEq

/-- Standard-path plan selection (the `if`/`else` around the single
ffmpeg invocation). -/
def multiplexPlanStd (f : MuxFlags) (muteTimeListLen : Nat) : PlanKind :=
  if needsProcessing f muteTimeListLen then PlanKind.runsEncode else PlanKind.noOpPassthrough

/-- Windows-path plan selection (`if not needs_processing: unalteredVideo
= True; return`). -/
def multiplexPlanWin (f : MuxFlags) (muteTimeListLen : Nat) : PlanKind :=
  if needsProcessing f muteTimeListLen then PlanKind.runsEncode else PlanKind.noOpPassthrough

/-- The effective subs-only flag set in `VidCleaner.__init__`:
`self.subsOnly = subsOnly or edl or (plexAutoSkipJson and
plexAutoSkipId)` (Python truthiness of the two strings). -/
def subsOnlyEffective (subsOnlyArg edlArg : Bool) (plexAutoSkipJson plexAutoSkipId : String) :
    Bool :=
  subsOnlyArg || edlArg || (!(plexAutoSkipJson == "") && !(plexAutoSkipId == ""))

/-- Whether the mute filter graph is attached to the encode command:
`(not self.subsOnly) and (len(self.muteTimeList) > 0)` (the same formula
gates `audio_filtering_active` on the Windows path). -/
def audioFilterApplied (subsOnly : Bool) (muteTimeListLen : Nat) : Bool :=
  !subsOnly && decide (0 < muteTimeListLen)

/-- Outcome of the external SRT-to-ASS conversion invocation. -/
inductive ConvOutcome where
  | toolFailed
  | fileCreated
  | noFileCreated
deriving Repr, DecidableEq

/-- The video-argument decision, abstracted from the concrete ffmpeg
parameter strings. -/
inductive VideoArgsResult where
  | burn
  | reencode
  | copy
deriving Repr, DecidableEq

/-- Standard-path computation of `videoArgs` (hardcode/re-encode
decision).  `run_ffmpeg_command` raises `ValueError` when the conversion
exits non-zero, and a successful exit that leaves no `.ass` file raises
`ValueError('ASS file not created')`; when the cleaned subtitle file is
absent the code silently falls through to plain re-encode parameters. -/
def videoArgsStandard (reEncodeVideo hardCode cleanSubsExists : Bool) (conv : ConvOutcome) :
    Except String VideoArgsResult :=
  if reEncodeVideo || hardCode then
    if hardCode && cleanSubsExists then
      match conv with
      | ConvOutcome.toolFailed => Except.error "Could not process clean subs to ASS"
      | ConvOutcome.fileCreated => Except.ok VideoArgsResult.burn
      | ConvOutcome.noFileCreated => Except.error "ASS file not created"
    else Except.ok VideoArgsResult.reencode
  else Except.ok VideoArgsResult.copy

/-- Windows-path (mux stage, audio filtering active) hardcode handling of
`mux_codecs`.  `assFresh` is true when an up-to-date `.ass` file already
exists (so no conversion runs).  The second component records whether a
warning was printed.  A failing conversion invocation raises through
`run_ffmpeg_command`; a missing cleaned-subtitle file or a conversion
that produces no file degrades to re-encode/copy with a warning. -/
def videoArgsWinMux (reEncodeVideo hardCode cleanSubsExists assFresh : Bool)
    (conv : ConvOutcome) : Except String (VideoArgsResult × Bool) :=
  if hardCode then
    if !cleanSubsExists then
      Except.ok ((if reEncodeVideo then VideoArgsResult.reencode else VideoArgsResult.copy), true)
    else
      if assFresh then Except.ok (VideoArgsResult.burn, false)
      else
        match conv with
        | ConvOutcome.toolFailed => Except.error "Failed to convert subtitles to ASS format"
        | ConvOutcome.fileCreated => Except.ok (VideoArgsResult.burn, false)
        | ConvOutcome.noFileCreated =>
          Except.ok
            ((if reEncodeVideo then VideoArgsResult.reencode else VideoArgsResult.copy), true)
  else if reEncodeVideo then Except.ok (VideoArgsResult.reencode, false)
  else Except.ok (VideoArgsResult.copy, false)

/-- Windows-path hardcode handling in the no-audio-filter branch
(`videoArgs_win`).  Unlike the mux stage, a missing cleaned-subtitle file
or missing conversion output falls back to the re-encode parameters
unconditionally. -/
def videoArgsWinNoFilter (reEncodeVideo hardCode cleanSubsExists assFresh : Bool)
    (conv : ConvOutcome) : Except String (VideoArgsResult × Bool) :=
  if reEncodeVideo || hardCode then
    if hardCode then
      if !cleanSubsExists then Except.ok (VideoArgsResult.reencode, true)
      else
        if assFresh then Except.ok (VideoArgsResult.burn, false)
        else
          match conv with
          | ConvOutcome.toolFailed =>
            Except.error "Failed to convert subtitles to ASS (no audio filter)"
          | ConvOutcome.fileCreated => Except.ok (VideoArgsResult.burn, false)
          | ConvOutcome.noFileCreated => Except.ok (VideoArgsResult.reencode, true)
    else Except.ok (VideoArgsResult.reencode, false)
  else Except.ok (VideoArgsResult.copy, false)

/-- The millisecond endpoints of a kept timestamp pair. -/
def pairMs (p : PyTime × PyTime) : Int × Int := (timeToMs p.1, timeToMs p.2)

/-- The interval the source computes for one keep decision: a scrubbed
cue is padded on both sides (`[start - pad, end + pad]`); a kept
unscrubbed cue keeps its own span. -/
def muteIntervalOf (pad : Int) (d : Cue × Bool) : Int × Int :=
  if d.2 then (d.1.startMs - pad, d.1.endMs + pad) else (d.1.startMs, d.1.endMs)

/-- The action of the dictionary `{'damn': '****'}` on the cue texts used
in the concrete examples below (the whole-word, case-insensitive regex
replacement restricted to those texts). -/
def rDamn : String → String := fun t => if t == "damn" then "****" else t

/-- The action of the dictionary `{'fin': '****'}` on the texts it meets
in the concrete examples below: no input cue contains `fin` as a whole
word, but the internally appended dummy cue text `Fin` matches it
case-insensitively. -/
def rFin : String → String := fun t => if t == "Fin" then "****" else t

/-! ### Basic lemmas about the time model -/

theorem subRip_ms {o : Int} {t : PyTime} (h : subRipOrdinalToTime o = Except.ok t) :
    timeToMs t = o := by
  unfold subRipOrdinalToTime at h
  split at h
  · cases h
    simp only [timeToMs]
    omega
  · cases h

theorem subRip_ok_of_range {o : Int} (h0 : 0 ≤ o) (h1 : o < 86400000) :
    subRipOrdinalToTime o =
      Except.ok ⟨o / 3600000, o % 3600000 / 60000, o % 60000 / 1000, o % 1000 * 1000⟩ := by
  unfold subRipOrdinalToTime
  rw [if_pos]
  omega

theorem secondsComponent_bounds (o : Int) :
    0 ≤ secondsComponent o ∧ secondsComponent o < 60 := by
  unfold secondsComponent
  omega

theorem pairwise_map_fst {α : Type} (l : List α) :
    (pairwise l).map Prod.fst = l.dropLast := by
  induction l with
  | nil => rfl
  | cons a t ih =>
    cases t with
    | nil => rfl
    | cons b t2 =>
      simpa [pairwise, List.dropLast] using ih

theorem mem_pairwise_fst {α : Type} {p : α × α} {l : List α} (h : p ∈ pairwise l) :
    p.1 ∈ l := by
  have h2 : (p.1, p.2) ∈ l.zip l.tail := by simpa [pairwise] using h
  exact (List.of_mem_zip h2).1

theorem mem_pairwise_snd {α : Type} {p : α × α} {l : List α} (h : p ∈ pairwise l) :
    p.2 ∈ l.tail := by
  have h2 : (p.1, p.2) ∈ l.zip l.tail := by simpa [pairwise] using h
  exact (List.of_mem_zip h2).2

theorem findIdx_congr {α : Type} (l : List α) (p q : α → Bool)
    (h : ∀ a ∈ l, p a = q a) : l.findIdx p = l.findIdx q := by
  induction l with
  | nil => rfl
  | cons a t ih =>
    have ha := h a (List.mem_cons_self a t)
    rw [List.findIdx_cons, List.findIdx_cons, ha,
      ih (fun b hb => h b (List.mem_cons_of_mem a hb))]

/-! ### Invariants of the scrub loop -/

theorem scrubStep_pairs_kept {cfg : ScrubCfg} {r : String → String} {st st2 : ScrubState}
    {p : Cue × Cue} (h : scrubStep cfg r st p = Except.ok st2)
    (inv : st.pairs.map pairMs = st.kept.map (muteIntervalOf cfg.padMs)) :
    st2.pairs.map pairMs = st2.kept.map (muteIntervalOf cfg.padMs) := by
  simp only [scrubStep] at h
  split at h
  · split at h
    · split at h
      · cases h
        simp only [List.map_append, List.map_cons, List.map_nil, inv]
        congr 1
        simp only [pairMs, muteIntervalOf, if_pos]
        rename_i t1 t2 heq1 heq2
        rw [subRip_ms heq1, subRip_ms heq2]
      · cases h
      · cases h
    · split at h
      · cases h
        simp only [List.map_append, List.map_cons, List.map_nil, inv]
        congr 1
        simp only [pairMs, muteIntervalOf, if_neg]
        rename_i t1 t2 heq1 heq2
        rw [subRip_ms heq1, subRip_ms heq2]
        simp
      · cases h
      · cases h
  · cases h
    simpa using inv

theorem scrubStep_kept_from {cfg : ScrubCfg} {r : String → String} {st st2 : ScrubState}
    {p : Cue × Cue} (h : scrubStep cfg r st p = Except.ok st2) :
    ∀ d ∈ st2.kept, d ∈ st.kept ∨ d.1 = p.1 := by
  simp only [scrubStep] at h
  split at h
  · split at h
    · split at h
      · cases h
        intro d hd
        rcases List.mem_append.mp hd with h1 | h1
        · exact Or.inl h1
        · simp only [List.mem_singleton] at h1
          subst h1
          exact Or.inr rfl
      · cases h
      · cases h
    · split at h
      · cases h
        intro d hd
        rcases List.mem_append.mp hd with h1 | h1
        · exact Or.inl h1
        · simp only [List.mem_singleton] at h1
          subst h1
          exact Or.inr rfl
      · cases h
      · cases h
  · cases h
    intro d hd
    exact Or.inl hd

theorem scrubFold_pairs_kept {cfg : ScrubCfg} {r : String → String} :
    ∀ {L : List (Cue × Cue)} {st st' : ScrubState},
      scrubFold cfg r L st = Except.ok st' →
      st.pairs.map pairMs = st.kept.map (muteIntervalOf cfg.padMs) →
      st'.pairs.map pairMs = st'.kept.map (muteIntervalOf cfg.padMs) := by
  intro L
  induction L with
  | nil =>
    intro st st' h inv
    cases h
    exact inv
  | cons q rest ih =>
    intro st st' h inv
    simp only [scrubFold] at h
    split at h
    · rename_i st2 heq
      exact ih h (scrubStep_pairs_kept heq inv)
    · cases h

theorem scrubFold_kept_from {cfg : ScrubCfg} {r : String → String} :
    ∀ {L : List (Cue × Cue)} {st st' : ScrubState},
      scrubFold cfg r L st = Except.ok st' →
      ∀ d ∈ st'.kept, d ∈ st.kept ∨ d.1 ∈ L.map Prod.fst := by
  intro L
  induction L with
  | nil =>
    intro st st' h d hd
    cases h
    exact Or.inl hd
  | cons q rest ih =>
    intro st st' h d hd
    simp only [scrubFold] at h
    split at h
    · rename_i st2 heq
      rcases ih h d hd with h1 | h1
      · rcases scrubStep_kept_from heq d h1 with h2 | h2
        · exact Or.inl h2
        · exact Or.inr (by simp [h2])
      · exact Or.inr (by simp [h1])
    · cases h

theorem scrubStep_padzero {cfg : ScrubCfg} {r : String → String} {st st2 : ScrubState}
    {p : Cue × Cue} (hpad : cfg.padMs = 0)
    (h : scrubStep cfg r st p = Except.ok st2) :
    st2.kept = st.kept ++ (if r p.1.text != p.1.text then [(p.1, true)] else [])
    ∧ st2.newSubs = st.newSubs ++
        (if r p.1.text != p.1.text then [Cue.mk p.1.startMs p.1.endMs (r p.1.text)]
         else if cfg.fullSubs then [p.1] else []) := by
  simp only [scrubStep, hpad, decide_eq_true_eq, lt_self_iff_false, decide_False,
    Bool.false_and, Bool.or_false] at h
  split at h
  · rename_i hkeep
    simp only [hkeep, if_true] at h ⊢
    split at h
    · cases h
      simp
    · cases h
    · cases h
  · rename_i hkeep
    have hkeep' : (r p.1.text != p.1.text) = false := by
      cases hb : (r p.1.text != p.1.text) with
      | false => rfl
      | true => exact absurd hb hkeep
    cases h
    simp only [hkeep', Bool.false_eq_true, if_false]
    constructor
    · simp
    · cases hfs : cfg.fullSubs with
      | false => simp [hfs]
      | true => simp [hfs]

theorem scrubFold_padzero {cfg : ScrubCfg} {r : String → String} (hpad : cfg.padMs = 0) :
    ∀ {L : List (Cue × Cue)} {st st' : ScrubState},
      scrubFold cfg r L st = Except.ok st' →
      st'.kept = st.kept ++
          ((L.map Prod.fst).filter (fun c => r c.text != c.text)).map (fun c => (c, true))
      ∧ st'.newSubs = st.newSubs ++ (L.map Prod.fst).filterMap (fun c =>
          if r c.text != c.text then some (Cue.mk c.startMs c.endMs (r c.text))
          else if cfg.fullSubs then some c else none) := by
  intro L
  induction L with
  | nil =>
    intro st st' h
    cases h
    simp
  | cons q rest ih =>
    intro st st' h
    simp only [scrubFold] at h
    split at h
    · rename_i st2 heq
      obtain ⟨hk2, hn2⟩ := scrubStep_padzero hpad heq
      obtain ⟨hk, hn⟩ := ih h
      constructor
      · rw [hk, hk2]
        cases hb : (r q.1.text != q.1.text) with
        | false => simp [List.filter_cons, hb]
        | true => simp [List.filter_cons, hb]
      · rw [hn, hn2]
        cases hb : (r q.1.text != q.1.text) with
        | false =>
          have heq2 : r q.1.text = q.1.text := by simpa using hb
          cases hfs : cfg.fullSubs with
          | false => simp [List.filterMap_cons, hb, hfs, heq2]
          | true => simp [List.filterMap_cons, hb, hfs, heq2]
        | true =>
          have hne2 : ¬ r q.1.text = q.1.text := by simpa using hb
          simp [List.filterMap_cons, hb, hne2]
    · cases h

theorem scrubStep_clean {cfg : ScrubCfg} {r : String → String} {st : ScrubState}
    {p : Cue × Cue} (h1 : r p.1.text = p.1.text)
    (h2 : ¬ 0 < cfg.padMs ∨ r p.2.text = p.2.text)
    (hprev : st.prevNaughty = none) :
    scrubStep cfg r st p =
      Except.ok ⟨none, (if cfg.fullSubs then st.newSubs ++ [p.1] else st.newSubs),
        st.kept, st.pairs, st.edits⟩ := by
  have hself : (r p.1.text != p.1.text) = false := by
    rw [h1]
    simp
  rcases h2 with h2 | h2
  · have hdec : decide (0 < cfg.padMs) = false := by
      simpa using h2
    simp [scrubStep, hself, hdec, hprev]
  · have hpeek : (r p.2.text != p.2.text) = false := by
      rw [h2]
      simp
    simp [scrubStep, hself, hpeek, hprev]

theorem scrubFold_clean {cfg : ScrubCfg} {r : String → String} :
    ∀ {L : List (Cue × Cue)} {st : ScrubState},
      (∀ q ∈ L, r q.1.text = q.1.text) →
      (∀ q ∈ L, ¬ 0 < cfg.padMs ∨ r q.2.text = q.2.text) →
      st.prevNaughty = none →
      scrubFold cfg r L st =
        Except.ok ⟨none, st.newSubs ++ (if cfg.fullSubs then L.map Prod.fst else []),
          st.kept, st.pairs, st.edits⟩ := by
  intro L
  induction L with
  | nil =>
    intro st _ _ hprev
    cases st with
    | mk prev ns k pr ed =>
      simp only [ScrubState.prevNaughty] at hprev
      subst hprev
      simp [scrubFold]
  | cons q rest ih =>
    intro st hc1 hc2 hprev
    have hq1 := hc1 q (List.mem_cons_self q rest)
    have hq2 := hc2 q (List.mem_cons_self q rest)
    simp only [scrubFold, scrubStep_clean hq1 hq2 hprev]
    rw [ih (fun x hx => hc1 x (List.mem_cons_of_mem q hx))
      (fun x hx => hc2 x (List.mem_cons_of_mem q hx)) rfl]
    cases hfs : cfg.fullSubs with
    | false => simp [hfs]
    | true => simp [hfs, List.append_assoc]

theorem create_ok_elim {cfg : ScrubCfg} {r : String → String} {subs : List Cue}
    {res : TimelineResult} (h : createCleanSubAndMuteList cfg r subs = Except.ok res) :
    ∃ st, scrubFold cfg r (pairwise (subs ++ [dummyCue subs])) initialScrubState = Except.ok st
      ∧ subRipOrdinalToTime (dummyCue subs).endMs = Except.ok res.sentinelStart
      ∧ res.newSubs = st.newSubs ∧ res.kept = st.kept
      ∧ res.realPairs = st.pairs ∧ res.edits = st.edits := by
  simp only [createCleanSubAndMuteList] at h
  cases hf : scrubFold cfg r (pairwise (subs ++ [dummyCue subs])) initialScrubState with
  | error e => rw [hf] at h; simp at h
  | ok st =>
    rw [hf] at h
    cases hs : subRipOrdinalToTime (dummyCue subs).endMs with
    | error e => rw [hs] at h; simp at h
    | ok sentinel =>
      rw [hs] at h
      simp only [Except.ok.injEq] at h
      subst h
      exact ⟨st, rfl, rfl, rfl, rfl, rfl, rfl⟩

/-! ### Lemmas about the filter/export loop -/

theorem synthLoop_length (e p : Bool) (real : List (PyTime × PyTime)) (sent : PyTime) :
    (synthLoop e p real sent).muteTimeList.length = 2 * real.length := by
  induction real with
  | nil => rfl
  | cons q rest ih =>
    cases q with
    | mk t1 t2 =>
      simp only [synthLoop, List.length_cons, ih, List.length_cons]
      omega

theorem synthLoop_no_downmix (e p : Bool) (real : List (PyTime × PyTime)) (sent : PyTime) :
    FilterStep.downmix ∉ (synthLoop e p real sent).muteTimeList := by
  induction real with
  | nil => simp [synthLoop]
  | cons q rest ih =>
    cases q with
    | mk t1 t2 =>
      simp only [synthLoop, List.mem_cons]
      intro hmem
      rcases hmem with h1 | h1 | h1
      · cases h1
      · cases h1
      · exact ih h1

theorem synthLoop_afade_shape (e p : Bool) (real : List (PyTime × PyTime)) (sent : PyTime) :
    ∀ step ∈ (synthLoop e p real sent).muteTimeList,
      ∃ a b ty, step = FilterStep.afade (fmtSec3 a) (fmtSec3 b) ty (fmtSec3 a) "10ms" := by
  induction real with
  | nil => simp [synthLoop]
  | cons q rest ih =>
    cases q with
    | mk t1 t2 =>
      intro step hmem
      simp only [synthLoop, List.mem_cons] at hmem
      rcases hmem with h1 | h1 | h1
      · exact ⟨timeToMs t1, timeToMs t2, "out", h1⟩
      · exact ⟨_, _, _, h1⟩
      · exact ih step h1

theorem synthLoop_edl_map (p : Bool) (real : List (PyTime × PyTime)) (sent : PyTime) :
    (synthLoop true p real sent).edlLines =
      real.map (fun q => fmtSec1 (timeToMs q.1) ++ "\t" ++ fmtSec3 (timeToMs q.2) ++ "\t1") := by
  induction real with
  | nil => rfl
  | cons q rest ih =>
    cases q with
    | mk t1 t2 => simp [synthLoop, ih]

theorem synthLoop_plex_map (e : Bool) (real : List (PyTime × PyTime)) (sent : PyTime) :
    (synthLoop e true real sent).plexMarkers =
      real.map (fun q => (timeToMs q.1, timeToMs q.2)) := by
  induction real with
  | nil => rfl
  | cons q rest ih =>
    cases q with
    | mk t1 t2 => simp [synthLoop, ih]

theorem pad3_length (n : Nat) : (pad3 n).length = 3 := rfl

/-! ### Claim C2 -/

/-- Claim C2, counterexample to the clamping part: with pad = 1000 ms and a
scrubbed cue spanning 500..700 ms, the source computes
`from_ordinal(500 - 1000).to_time()`, which raises `ValueError` instead of
clamping the interval start at 0 — no mute interval is emitted at all. -/
theorem claim_mute_interval_clamp_counterexample :
    createCleanSubAndMuteList ⟨1000, false, false⟩ rDamn [⟨500, 700, "damn"⟩]
      = Except.error "hour must be in 0..23" := rfl

/-- Claim C2 (amended): on every run of the timeline builder that completes
without raising, each kept scrubbed cue's emitted interval is exactly
`[start - pad, end + pad]` with no clamping, and each kept unscrubbed cue's
interval is exactly its own `[start, end]` span.  (If `start - pad` is
negative the builder raises instead of clamping, per the counterexample.) -/
theorem claim_mute_interval_endpoints_amended (cfg : ScrubCfg) (r : String → String)
    (subs : List Cue) (res : TimelineResult)
    (h : createCleanSubAndMuteList cfg r subs = Except.ok res) :
    res.realPairs.map pairMs = res.kept.map (muteIntervalOf cfg.padMs) := by
  obtain ⟨st, hf, -, -, hk, hp, -⟩ := create_ok_elim h
  rw [hp, hk]
  exact scrubFold_pairs_kept hf rfl

/-- Witness for C2: a concrete successful run (pad 1000 ms, one scrubbed
cue 5000..6000 ms) on which the amended theorem's conclusion evaluates:
the emitted interval is 4000..7000 ms. -/
theorem claim_mute_interval_endpoints_witness :
    createCleanSubAndMuteList ⟨1000, false, false⟩ rDamn [⟨5000, 6000, "damn"⟩]
      = Except.ok ⟨[⟨5000, 6000, "****"⟩], [(⟨5000, 6000, "damn"⟩, true)],
          [(⟨0, 0, 4, 0⟩, ⟨0, 0, 7, 0⟩)], [], ⟨0, 0, 0, 8000⟩⟩
    ∧ ([(⟨0, 0, 4, 0⟩, ⟨0, 0, 7, 0⟩)] : List (PyTime × PyTime)).map pairMs
        = ([(⟨5000, 6000, "damn"⟩, true)] : List (Cue × Bool)).map (muteIntervalOf 1000) :=
  ⟨rfl,
    claim_mute_interval_endpoints_amended ⟨1000, false, false⟩ rDamn [⟨5000, 6000, "damn"⟩]
      ⟨[⟨5000, 6000, "****"⟩], [(⟨5000, 6000, "damn"⟩, true)],
        [(⟨0, 0, 4, 0⟩, ⟨0, 0, 7, 0⟩)], [], ⟨0, 0, 0, 8000⟩⟩ rfl⟩

/-! ### Claim C6 -/

/-- Claim C6, counterexample to the ordering part: a single time-ordered
scrubbed cue at 65000..66000 ms (pad 0) yields the pair list
`[(65000, 66000), (8, None)]` — the appended sentinel starts at 8 ms
because it is built from the `seconds` field (mod 60) of the dummy cue,
so the list including the sentinel is not in non-decreasing time order. -/
theorem claim_mute_timeline_order_counterexample :
    timeOrderedCues [⟨65000, 66000, "damn"⟩] = true
    ∧ createCleanSubAndMuteList ⟨0, false, false⟩ rDamn [⟨65000, 66000, "damn"⟩]
        = Except.ok ⟨[⟨65000, 66000, "****"⟩], [(⟨65000, 66000, "damn"⟩, true)],
            [(⟨0, 1, 5, 0⟩, ⟨0, 1, 6, 0⟩)], [], ⟨0, 0, 0, 8000⟩⟩
    ∧ nondecreasing ((allPairsMs ⟨[⟨65000, 66000, "****"⟩], [(⟨65000, 66000, "damn"⟩, true)],
            [(⟨0, 1, 5, 0⟩, ⟨0, 1, 6, 0⟩)], [], ⟨0, 0, 0, 8000⟩⟩).map Prod.fst) = false :=
  ⟨rfl, rfl, rfl⟩

/-- Claim C6 (amended): for time-ordered cues and a non-negative pad, every
emitted non-sentinel interval satisfies end ≥ start; the intervals appear
in cue order, but the list (and in particular the appended sentinel) is
not guaranteed to be in non-decreasing time order. -/
theorem claim_mute_timeline_invariant_amended (cfg : ScrubCfg) (r : String → String)
    (subs : List Cue) (res : TimelineResult)
    (hpad : 0 ≤ cfg.padMs)
    (hc : ∀ c ∈ subs, c.startMs ≤ c.endMs)
    (h : createCleanSubAndMuteList cfg r subs = Except.ok res) :
    ∀ q ∈ res.realPairs, timeToMs q.1 ≤ timeToMs q.2 := by
  obtain ⟨st, hf, -, -, hk, hp, -⟩ := create_ok_elim h
  intro q hq
  rw [hp] at hq
  have hmap : st.pairs.map pairMs = st.kept.map (muteIntervalOf cfg.padMs) :=
    scrubFold_pairs_kept hf rfl
  have hmem : pairMs q ∈ st.kept.map (muteIntervalOf cfg.padMs) := by
    rw [← hmap]
    exact List.mem_map_of_mem pairMs hq
  obtain ⟨d, hd, hdq⟩ := List.mem_map.mp hmem
  have hd1 : d.1 ∈ subs := by
    rcases scrubFold_kept_from hf d hd with h1 | h1
    · cases h1
    · rw [pairwise_map_fst, List.dropLast_concat] at h1
      exact h1
  have hse : d.1.startMs ≤ d.1.endMs := hc d.1 hd1
  have h1 : (pairMs q).1 = timeToMs q.1 := rfl
  have h2 : (pairMs q).2 = timeToMs q.2 := rfl
  rw [← h1, ← h2, ← hdq]
  unfold muteIntervalOf
  split
  · simp only []
    omega
  · simpa using hse

/-- Witness for C6: a concrete run (pad 0, one cue 5000..6000 ms) at which
the amended theorem's hypotheses hold and its conclusion evaluates. -/
theorem claim_mute_timeline_invariant_witness :
    (0 : Int) ≤ 0
    ∧ (∀ c ∈ ([⟨5000, 6000, "damn"⟩] : List Cue), c.startMs ≤ c.endMs)
    ∧ ∀ q ∈ ([(⟨0, 0, 5, 0⟩, ⟨0, 0, 6, 0⟩)] : List (PyTime × PyTime)),
        timeToMs q.1 ≤ timeToMs q.2 :=
  ⟨le_refl 0, by decide,
    claim_mute_timeline_invariant_amended ⟨0, false, false⟩ rDamn [⟨5000, 6000, "damn"⟩]
      ⟨[⟨5000, 6000, "****"⟩], [(⟨5000, 6000, "damn"⟩, true)],
        [(⟨0, 0, 5, 0⟩, ⟨0, 0, 6, 0⟩)], [], ⟨0, 0, 0, 8000⟩⟩
      (le_refl 0) (by decide) rfl⟩

/-! ### Claim C8 -/

/-- Claim C8: with pad = 0 the scrub loop keeps exactly the cues whose own
text changed under the dictionary replacement (each marked scrubbed), and
the output cue list consists of the changed cues rewritten plus — only
when `fullSubs` ("retain all") is set — the unchanged cues unmodified; no
cue is kept because of a scrubbed neighbor. -/
theorem claim_pad_zero_no_propagation (cfg : ScrubCfg) (r : String → String)
    (subs : List Cue) (res : TimelineResult)
    (hpad : cfg.padMs = 0)
    (h : createCleanSubAndMuteList cfg r subs = Except.ok res) :
    res.kept = (subs.filter (fun c => r c.text != c.text)).map (fun c => (c, true))
    ∧ res.newSubs = subs.filterMap (fun c =>
        if r c.text != c.text then some (Cue.mk c.startMs c.endMs (r c.text))
        else if cfg.fullSubs then some c else none) := by
  obtain ⟨st, hf, -, hn, hk, -, -⟩ := create_ok_elim h
  obtain ⟨hk', hn'⟩ := scrubFold_padzero hpad hf
  rw [pairwise_map_fst, List.dropLast_concat] at hk' hn'
  constructor
  · rw [hk, hk']
    rfl
  · rw [hn, hn']
    rfl

/-- Witness for C8: pad 0 over one profane and one clean cue with
`fullSubs` set: only the profane cue is kept (scrubbed), the clean cue is
passed through unmodified. -/
theorem claim_pad_zero_no_propagation_witness :
    createCleanSubAndMuteList ⟨0, true, false⟩ rDamn [⟨0, 1000, "damn"⟩, ⟨2000, 3000, "hello"⟩]
      = Except.ok ⟨[⟨0, 1000, "****"⟩, ⟨2000, 3000, "hello"⟩],
          [(⟨0, 1000, "damn"⟩, true)],
          [(⟨0, 0, 0, 0⟩, ⟨0, 0, 1, 0⟩)], [], ⟨0, 0, 0, 5000⟩⟩
    ∧ ([(⟨0, 1000, "damn"⟩, true)] : List (Cue × Bool))
        = (([⟨0, 1000, "damn"⟩, ⟨2000, 3000, "hello"⟩] : List Cue).filter
            (fun c => rDamn c.text != c.text)).map (fun c => (c, true))
      ∧ ([⟨0, 1000, "****"⟩, ⟨2000, 3000, "hello"⟩] : List Cue)
        = ([⟨0, 1000, "damn"⟩, ⟨2000, 3000, "hello"⟩] : List Cue).filterMap (fun c =>
            if rDamn c.text != c.text then some (Cue.mk c.startMs c.endMs (rDamn c.text))
            else if true then some c else none) :=
  ⟨rfl,
    claim_pad_zero_no_propagation ⟨0, true, false⟩ rDamn
      [⟨0, 1000, "damn"⟩, ⟨2000, 3000, "hello"⟩]
      ⟨[⟨0, 1000, "****"⟩, ⟨2000, 3000, "hello"⟩],
        [(⟨0, 1000, "damn"⟩, true)],
        [(⟨0, 0, 0, 0⟩, ⟨0, 0, 1, 0⟩)], [], ⟨0, 0, 0, 5000⟩⟩ rfl rfl⟩

/-! ### Claim C9 -/

/-- Claim C9, counterexample: the dictionary `{'fin': '****'}` matches no
input cue (`rFin` fixes the single cue text `hello`), yet with pad > 0 the
internally appended dummy cue `Fin` is scrubbed by it, so the last real
cue is kept by lookahead propagation: the mute timeline is non-empty and
the plan runs an encode instead of being a no-op passthrough. -/
theorem claim_round_trip_counterexample :
    (∀ c ∈ ([⟨0, 1000, "hello"⟩] : List Cue), rFin c.text = c.text)
    ∧ createCleanSubAndMuteList ⟨1000, true, false⟩ rFin [⟨0, 1000, "hello"⟩]
        = Except.ok ⟨[⟨0, 1000, "hello"⟩], [(⟨0, 1000, "hello"⟩, false)],
            [(⟨0, 0, 0, 0⟩, ⟨0, 0, 1, 0⟩)], [], ⟨0, 0, 0, 3000⟩⟩
    ∧ multiplexPlanStd ⟨false, false, false, false, false⟩
        ((synthLoop false false [(⟨0, 0, 0, 0⟩, ⟨0, 0, 1, 0⟩)] ⟨0, 0, 0, 3000⟩).muteTimeList.length)
        = PlanKind.runsEncode :=
  ⟨by decide, rfl, rfl⟩

/-- Claim C9 (amended): feeding a dictionary that changes no input cue text
— and that additionally leaves the internal dummy cue text `Fin`
unchanged, or pad = 0 — produces an empty edit list, no kept cues, an
empty mute timeline, an output cue list equal to the input exactly when
"retain all" is set, and a no-op passthrough plan on both the standard
and Windows paths (with all processing flags off). -/
theorem claim_round_trip_amended (cfg : ScrubCfg) (r : String → String) (subs : List Cue)
    (hclean : ∀ c ∈ subs, r c.text = c.text)
    (hfin : r "Fin" = "Fin" ∨ ¬ 0 < cfg.padMs) :
    ∃ res, createCleanSubAndMuteList cfg r subs = Except.ok res
      ∧ res.edits = [] ∧ res.kept = [] ∧ res.realPairs = []
      ∧ res.newSubs = (if cfg.fullSubs then subs else [])
      ∧ multiplexPlanStd ⟨false, false, false, false, false⟩
          ((synthLoop false false res.realPairs res.sentinelStart).muteTimeList.length)
          = PlanKind.noOpPassthrough
      ∧ multiplexPlanWin ⟨false, false, false, false, false⟩
          ((synthLoop false false res.realPairs res.sentinelStart).muteTimeList.length)
          = PlanKind.noOpPassthrough := by
  have hc1 : ∀ q ∈ pairwise (subs ++ [dummyCue subs]), r q.1.text = q.1.text := by
    intro q hq
    have hmem : q.1 ∈ (pairwise (subs ++ [dummyCue subs])).map Prod.fst :=
      List.mem_map_of_mem Prod.fst hq
    rw [pairwise_map_fst, List.dropLast_concat] at hmem
    exact hclean q.1 hmem
  have hc2 : ∀ q ∈ pairwise (subs ++ [dummyCue subs]),
      ¬ 0 < cfg.padMs ∨ r q.2.text = q.2.text := by
    intro q hq
    rcases hfin with hfin | hfin
    swap
    · exact Or.inl hfin
    · refine Or.inr ?_
      have hmem : q.2 ∈ (subs ++ [dummyCue subs]).tail := mem_pairwise_snd hq
      have hmem2 : q.2 ∈ subs ++ [dummyCue subs] := List.mem_of_mem_tail hmem
      rcases List.mem_append.mp hmem2 with h1 | h1
      · exact hclean q.2 h1
      · simp only [List.mem_singleton] at h1
        rw [h1]
        exact hfin
  have hfold := scrubFold_clean hc1 hc2 (rfl : initialScrubState.prevNaughty = none)
  rw [pairwise_map_fst, List.dropLast_concat] at hfold
  have hrange : 0 ≤ (dummyCue subs).endMs ∧ (dummyCue subs).endMs < 86400000 := by
    unfold dummyCue
    cases subs.getLast? with
    | none => simp
    | some c =>
      have := secondsComponent_bounds c.endMs
      simp only []
      omega
  have hsent := subRip_ok_of_range hrange.1 hrange.2
  refine ⟨⟨(if cfg.fullSubs then subs else []), [], [], [],
    ⟨(dummyCue subs).endMs / 3600000, (dummyCue subs).endMs % 3600000 / 60000,
      (dummyCue subs).endMs % 60000 / 1000, (dummyCue subs).endMs % 1000 * 1000⟩⟩,
    ?_, rfl, rfl, rfl, rfl, rfl, rfl⟩
  simp only [createCleanSubAndMuteList, hfold, hsent]
  simp [initialScrubState]

/-- Witness for C9: the identity-acting dictionary on one clean cue, with
`fullSubs` set and pad 1000 ms. -/
theorem claim_round_trip_witness :
    (∀ c ∈ ([⟨0, 1000, "hello"⟩] : List Cue), rDamn c.text = c.text)
    ∧ (rDamn "Fin" = "Fin" ∨ ¬ (0 : Int) < 1000)
    ∧ ∃ res, createCleanSubAndMuteList ⟨1000, true, false⟩ rDamn [⟨0, 1000, "hello"⟩]
        = Except.ok res
      ∧ res.edits = [] ∧ res.kept = [] ∧ res.realPairs = []
      ∧ res.newSubs = (if true then [⟨0, 1000, "hello"⟩] else [])
      ∧ multiplexPlanStd ⟨false, false, false, false, false⟩
          ((synthLoop false false res.realPairs res.sentinelStart).muteTimeList.length)
          = PlanKind.noOpPassthrough
      ∧ multiplexPlanWin ⟨false, false, false, false, false⟩
          ((synthLoop false false res.realPairs res.sentinelStart).muteTimeList.length)
          = PlanKind.noOpPassthrough :=
  ⟨by decide, Or.inl rfl,
    claim_round_trip_amended ⟨1000, true, false⟩ rDamn [⟨0, 1000, "hello"⟩]
      (by decide) (Or.inl rfl)⟩

/-! ### Claim C3 -/

/-- Claim C3: for every non-empty mute-interval list the filter loop emits
exactly `2 × |intervals|` steps (one fade-out and one fade-in per
interval), plus one more when downmix applies, and the downmix step, when
present, is the first element — under both the standard insertion and the
Windows-path guarded insertion. -/
theorem claim_filter_step_count (e p dm : Bool) (real : List (PyTime × PyTime))
    (sent : PyTime) (hne : real ≠ []) :
    (insertDownmixStd dm (synthLoop e p real sent).muteTimeList).length
        = 2 * real.length + (if dm then 1 else 0)
    ∧ (insertDownmixWin dm (synthLoop e p real sent).muteTimeList).length
        = 2 * real.length + (if dm then 1 else 0)
    ∧ (dm = true →
        (insertDownmixStd dm (synthLoop e p real sent).muteTimeList).head?
            = some FilterStep.downmix
        ∧ (insertDownmixWin dm (synthLoop e p real sent).muteTimeList).head?
            = some FilterStep.downmix) := by
  have hnd := synthLoop_no_downmix e p real sent
  have hlen := synthLoop_length e p real sent
  cases dm with
  | false => simp [insertDownmixStd, insertDownmixWin, hlen]
  | true =>
    refine ⟨?_, ?_, fun _ => ⟨?_, ?_⟩⟩ <;>
      simp [insertDownmixStd, insertDownmixWin, hnd, hlen]

/-- Witness for C3: one interval (5..6 s) with downmix requested: three
steps, downmix first, on both insertion variants. -/
theorem claim_filter_step_count_witness :
    ([(⟨0, 0, 5, 0⟩, ⟨0, 0, 6, 0⟩)] : List (PyTime × PyTime)) ≠ []
    ∧ (insertDownmixStd true
          (synthLoop false false [(⟨0, 0, 5, 0⟩, ⟨0, 0, 6, 0⟩)] ⟨0, 0, 0, 8000⟩).muteTimeList).length
        = 2 * 1 + (if true then 1 else 0)
    ∧ (insertDownmixWin true
          (synthLoop false false [(⟨0, 0, 5, 0⟩, ⟨0, 0, 6, 0⟩)] ⟨0, 0, 0, 8000⟩).muteTimeList).length
        = 2 * 1 + (if true then 1 else 0) :=
  ⟨by decide,
    (claim_filter_step_count false false true [(⟨0, 0, 5, 0⟩, ⟨0, 0, 6, 0⟩)] ⟨0, 0, 0, 8000⟩
      (by decide)).1,
    (claim_filter_step_count false false true [(⟨0, 0, 5, 0⟩, ⟨0, 0, 6, 0⟩)] ⟨0, 0, 0, 8000⟩
      (by decide)).2.1⟩

/-! ### Claim C7 -/

/-- Claim C7, counterexample: a scrubbed cue 1200..5678 ms (pad 0) produces
the EDL row `"1.2\t5.678\t1"` — seconds with one and three decimal places —
not the whole-millisecond row `"1200\t5678\t1"` the claim describes. -/
theorem claim_exporter_numeric_counterexample :
    (createCleanSubAndMuteList ⟨0, false, false⟩ rDamn [⟨1200, 5678, "damn"⟩]).map
        (fun res => (synthLoop true true res.realPairs res.sentinelStart).edlLines)
      = Except.ok ["1.2\t5.678\t1"]
    ∧ ("1.2\t5.678\t1" : String)
        ≠ toString (1200 : Int) ++ "\t" ++ toString (5678 : Int) ++ "\t1" :=
  ⟨rfl, by decide⟩

/-- Claim C7 (amended): the filter expressions render every interval time
as seconds with exactly three decimal places; the EDL rows are one
tab-separated row `start\tend\t1` per interval with the start rendered as
seconds with one decimal place and the end as seconds with three decimal
places; the Plex markers carry the interval times as whole milliseconds. -/
theorem claim_exporter_numeric_amended (real : List (PyTime × PyTime)) (sent : PyTime) :
    (synthLoop true true real sent).edlLines
        = real.map (fun q => fmtSec1 (timeToMs q.1) ++ "\t" ++ fmtSec3 (timeToMs q.2) ++ "\t1")
    ∧ (synthLoop true true real sent).plexMarkers
        = real.map (fun q => (timeToMs q.1, timeToMs q.2))
    ∧ (∀ step ∈ (synthLoop true true real sent).muteTimeList,
        ∃ a b ty, step = FilterStep.afade (fmtSec3 a) (fmtSec3 b) ty (fmtSec3 a) "10ms")
    ∧ (∀ ms : Int, fmtSec3 ms = toString (ms.toNat / 1000) ++ "." ++ pad3 (ms.toNat % 1000)
        ∧ (pad3 (ms.toNat % 1000)).length = 3) :=
  ⟨synthLoop_edl_map true real sent, synthLoop_plex_map true real sent,
    synthLoop_afade_shape true true real sent, fun _ => ⟨rfl, pad3_length _⟩⟩

/-- Witness for C7: the amended statement instantiated at the concrete
interval 1.2..5.678 s. -/
theorem claim_exporter_numeric_witness :
    (synthLoop true true [(⟨0, 0, 1, 200000⟩, ⟨0, 0, 5, 678000⟩)] ⟨0, 0, 0, 7000⟩).edlLines
        = ([(⟨0, 0, 1, 200000⟩, ⟨0, 0, 5, 678000⟩)] : List (PyTime × PyTime)).map
            (fun q => fmtSec1 (timeToMs q.1) ++ "\t" ++ fmtSec3 (timeToMs q.2) ++ "\t1")
    ∧ (synthLoop true true [(⟨0, 0, 1, 200000⟩, ⟨0, 0, 5, 678000⟩)] ⟨0, 0, 0, 7000⟩).plexMarkers
        = ([(⟨0, 0, 1, 200000⟩, ⟨0, 0, 5, 678000⟩)] : List (PyTime × PyTime)).map
            (fun q => (timeToMs q.1, timeToMs q.2)) :=
  ⟨(claim_exporter_numeric_amended [(⟨0, 0, 1, 200000⟩, ⟨0, 0, 5, 678000⟩)] ⟨0, 0, 0, 7000⟩).1,
    (claim_exporter_numeric_amended [(⟨0, 0, 1, 200000⟩, ⟨0, 0, 5, 678000⟩)] ⟨0, 0, 0, 7000⟩).2.1⟩

/-! ### Claim C1 -/

/-- Claim C1: audio-stream resolution, on both the standard and the Windows
path.  With no requested index and exactly one probed stream (carrying an
index), that stream becomes the target at 0-based position 0; with no
requested index and more than one stream, resolution fails with the
ambiguous-stream error; a requested index matching no probed stream's
index fails with the invalid-stream-index error; a requested index that
does match yields the matching stream's 0-based position in the probed
audio list. -/
theorem claim_stream_resolution (streams : List AudioStream) :
    (∀ s : AudioStream, streams = [s] → s.index.isSome →
      resolveAudioStreamStd streams none = Except.ok 0
      ∧ resolveAudioStreamWin streams none = Except.ok 0)
    ∧ (2 ≤ streams.length →
      resolveAudioStreamStd streams none = Except.error ResolveError.ambiguousStream
      ∧ resolveAudioStreamWin streams none = Except.error ResolveError.ambiguousStream)
    ∧ (∀ k : Int, streams ≠ [] → (∀ s ∈ streams, s.index.isSome) →
        (∀ s ∈ streams, s.index ≠ some k) →
      resolveAudioStreamStd streams (some k) = Except.error ResolveError.invalidStreamIndex
      ∧ resolveAudioStreamWin streams (some k) = Except.error ResolveError.invalidStreamIndex)
    ∧ (∀ k : Int, (∀ s ∈ streams, s.index.isSome) → (∃ s ∈ streams, s.index = some k) →
      resolveAudioStreamStd streams (some k)
          = Except.ok (streams.findIdx (fun s => s.index == some k))
      ∧ resolveAudioStreamWin streams (some k)
          = Except.ok (streams.findIdx (fun s => s.index == some k))) := by
  refine ⟨?_, ?_, ?_, ?_⟩
  · intro s hs hsome
    subst hs
    obtain ⟨i, hi⟩ := Option.isSome_iff_exists.mp hsome
    constructor <;> simp [resolveAudioStreamStd, resolveAudioStreamWin, hi]
  · intro h2
    cases streams with
    | nil => simp at h2
    | cons a t =>
      cases t with
      | nil => simp at h2
      | cons b t2 =>
        constructor <;> simp [resolveAudioStreamStd, resolveAudioStreamWin]
  · intro k hne hsome hnone
    have hany : streams.any (fun s => s.index.getD (-1) == k) = false := by
      rw [List.any_eq_false]
      intro s hs
      obtain ⟨j, hj⟩ := Option.isSome_iff_exists.mp (hsome s hs)
      have := hnone s hs
      rw [hj] at this ⊢
      simp only [Option.getD_some]
      simp only [beq_iff_eq]
      intro hjk
      exact this (by rw [hjk])
    have hpos : 0 < streams.length := List.length_pos.mpr hne
    have hempty : streams.isEmpty = false := by
      cases streams with
      | nil => exact absurd rfl hne
      | cons a t => rfl
    constructor <;> simp [resolveAudioStreamStd, resolveAudioStreamWin, hany, hpos, hempty]
  · intro k hsome hex
    have hagree : ∀ s ∈ streams, (s.index.getD (-1) == k) = (s.index == some k) := by
      intro s hs
      obtain ⟨j, hj⟩ := Option.isSome_iff_exists.mp (hsome s hs)
      rw [hj]
      simp only [Option.getD_some]
      cases hb : (j == k) with
      | true =>
        have : j = k := by simpa using hb
        simp [this]
      | false =>
        have : j ≠ k := by simpa using hb
        simp [Option.some.injEq, this]
    obtain ⟨s0, hs0, hs0k⟩ := hex
    have hanyW : streams.any (fun s => s.index == some k) = true := by
      rw [List.any_eq_true]
      exact ⟨s0, hs0, by simp [hs0k]⟩
    have hanyS : streams.any (fun s => s.index.getD (-1) == k) = true := by
      rw [List.any_eq_true]
      exact ⟨s0, hs0, by rw [hagree s0 hs0]; simp [hs0k]⟩
    have hpos : 0 < streams.length := by
      cases streams with
      | nil => cases hs0
      | cons a t => simp
    have hempty : streams.isEmpty = false := by
      cases streams with
      | nil => cases hs0
      | cons a t => rfl
    have hfind : streams.findIdx (fun s => s.index.getD (-1) == k)
        = streams.findIdx (fun s => s.index == some k) :=
      findIdx_congr streams _ _ hagree
    constructor
    · simp [resolveAudioStreamStd, hanyS, hpos, hfind]
    · simp [resolveAudioStreamWin, hanyS, hanyW, hempty]

/-- Witness for C1: concrete stream lists exercising all four rules on both
paths. -/
theorem claim_stream_resolution_witness :
    (resolveAudioStreamStd [⟨some 3⟩] none = Except.ok 0
      ∧ resolveAudioStreamWin [⟨some 3⟩] none = Except.ok 0)
    ∧ (resolveAudioStreamStd [⟨some 1⟩, ⟨some 5⟩] none
          = Except.error ResolveError.ambiguousStream
      ∧ resolveAudioStreamWin [⟨some 1⟩, ⟨some 5⟩] none
          = Except.error ResolveError.ambiguousStream)
    ∧ (resolveAudioStreamStd [⟨some 1⟩, ⟨some 5⟩] (some 2)
          = Except.error ResolveError.invalidStreamIndex
      ∧ resolveAudioStreamWin [⟨some 1⟩, ⟨some 5⟩] (some 2)
          = Except.error ResolveError.invalidStreamIndex)
    ∧ (resolveAudioStreamStd [⟨some 1⟩, ⟨some 5⟩] (some 5)
          = Except.ok (([⟨some 1⟩, ⟨some 5⟩] : List AudioStream).findIdx
              (fun s => s.index == some 5))
      ∧ resolveAudioStreamWin [⟨some 1⟩, ⟨some 5⟩] (some 5)
          = Except.ok (([⟨some 1⟩, ⟨some 5⟩] : List AudioStream).findIdx
              (fun s => s.index == some 5))) :=
  ⟨(claim_stream_resolution [⟨some 3⟩]).1 ⟨some 3⟩ rfl rfl,
    (claim_stream_resolution [⟨some 1⟩, ⟨some 5⟩]).2.1 (by decide),
    (claim_stream_resolution [⟨some 1⟩, ⟨some 5⟩]).2.2.1 2 (by decide) (by decide) (by decide),
    (claim_stream_resolution [⟨some 1⟩, ⟨some 5⟩]).2.2.2 5 (by decide)
      ⟨⟨some 5⟩, by decide, rfl⟩⟩

/-! ### Claim C4 -/

/-- Claim C4, counterexample: on the standard (single-pass) path, when the
cleaned-subtitle file exists but the ASS conversion invocation fails,
`run_ffmpeg_command` raises and the whole job fails — there is no fallback
to re-encoding without burned-in subtitles. -/
theorem claim_hardcode_fallback_counterexample :
    videoArgsStandard false true true ConvOutcome.toolFailed
      = Except.error "Could not process clean subs to ASS" := rfl

/-- Claim C4 (amended): when the cleaned-subtitle file is absent, every
path falls back to re-encoding without burned-in subtitles and does not
fail the job (the Windows paths print a warning; the single-pass path is
silent).  When the ASS conversion invocation itself fails, every path
raises and the job fails.  When the conversion exits successfully but the
`.ass` file is missing, the single-pass path raises while the Windows
paths warn and fall back. -/
theorem claim_hardcode_fallback_amended (rv : Bool) :
    (∀ conv : ConvOutcome,
        videoArgsStandard rv true false conv = Except.ok VideoArgsResult.reencode)
    ∧ (∀ (fresh : Bool) (conv : ConvOutcome),
        videoArgsWinMux rv true false fresh conv
          = Except.ok ((if rv then VideoArgsResult.reencode else VideoArgsResult.copy), true))
    ∧ (∀ (fresh : Bool) (conv : ConvOutcome),
        videoArgsWinNoFilter rv true false fresh conv
          = Except.ok (VideoArgsResult.reencode, true))
    ∧ videoArgsStandard rv true true ConvOutcome.toolFailed
        = Except.error "Could not process clean subs to ASS"
    ∧ videoArgsWinMux rv true true false ConvOutcome.toolFailed
        = Except.error "Failed to convert subtitles to ASS format"
    ∧ videoArgsWinNoFilter rv true true false ConvOutcome.toolFailed
        = Except.error "Failed to convert subtitles to ASS (no audio filter)"
    ∧ videoArgsStandard rv true true ConvOutcome.noFileCreated
        = Except.error "ASS file not created"
    ∧ videoArgsWinMux rv true true false ConvOutcome.noFileCreated
        = Except.ok ((if rv then VideoArgsResult.reencode else VideoArgsResult.copy), true) := by
  cases rv <;>
    exact ⟨fun _ => rfl, fun _ _ => rfl, fun _ _ => rfl, rfl, rfl, rfl, rfl, rfl⟩

/-- Witness for C4 (amended statement at `rv = false`). -/
theorem claim_hardcode_fallback_witness :
    videoArgsStandard false true false ConvOutcome.toolFailed
        = Except.ok VideoArgsResult.reencode
    ∧ videoArgsWinMux false true false false ConvOutcome.toolFailed
        = Except.ok ((if false then VideoArgsResult.reencode else VideoArgsResult.copy), true)
    ∧ videoArgsWinMux false true true false ConvOutcome.noFileCreated
        = Except.ok ((if false then VideoArgsResult.reencode else VideoArgsResult.copy), true) :=
  ⟨(claim_hardcode_fallback_amended false).1 ConvOutcome.toolFailed,
    (claim_hardcode_fallback_amended false).2.1 false ConvOutcome.toolFailed,
    (claim_hardcode_fallback_amended false).2.2.2.2.2.2.2⟩

/-! ### Claim C5 -/

/-- Claim C5: when none of re-encode video, re-encode audio, hardcode,
embed, or (non-empty mute list while not subs-only) hold, both the
standard and the Windows path select the no-op passthrough plan: no encode
invocation is issued and the video is marked unaltered. -/
theorem claim_noop_passthrough (f : MuxFlags) (n : Nat)
    (h1 : f.reEncodeVideo = false) (h2 : f.reEncodeAudio = false)
    (h3 : f.hardCode = false) (h4 : f.embedSubs = false)
    (h5 : f.subsOnly = false → n = 0) :
    multiplexPlanStd f n = PlanKind.noOpPassthrough
    ∧ multiplexPlanWin f n = PlanKind.noOpPassthrough := by
  have hnp : needsProcessing f n = false := by
    unfold needsProcessing
    rw [h1, h2, h3, h4]
    cases hso : f.subsOnly with
    | true => simp
    | false => simp [h5 hso]
  simp [multiplexPlanStd, multiplexPlanWin, hnp]

/-- Witness for C5: the all-false flag set with an empty mute list. -/
theorem claim_noop_passthrough_witness :
    multiplexPlanStd ⟨false, false, false, false, false⟩ 0 = PlanKind.noOpPassthrough
    ∧ multiplexPlanWin ⟨false, false, false, false, false⟩ 0 = PlanKind.noOpPassthrough :=
  claim_noop_passthrough ⟨false, false, false, false, false⟩ 0 rfl rfl rfl rfl (fun _ => rfl)

/-! ### Claim C10 -/

/-- Claim C10: requesting EDL output, or requesting Plex output (both a
JSON path and a content id non-empty), forces the effective subs-only flag
true at construction regardless of the caller's subs-only argument; the
audio-mute filter graph is then never attached to the output command, while
the mute timeline is still computed and exported (one EDL row per
interval). -/
theorem claim_edl_plex_force_subs_only (a e : Bool) (pj pid : String) (n : Nat)
    (h : e = true ∨ (pj ≠ "" ∧ pid ≠ "")) :
    subsOnlyEffective a e pj pid = true
    ∧ audioFilterApplied (subsOnlyEffective a e pj pid) n = false
    ∧ ∀ (p : Bool) (real : List (PyTime × PyTime)) (sent : PyTime),
        (synthLoop true p real sent).edlLines.length = real.length := by
  have hso : subsOnlyEffective a e pj pid = true := by
    rcases h with h | ⟨hp1, hp2⟩
    · simp [subsOnlyEffective, h]
    · have hb1 : (pj == "") = false := by simp [hp1]
      have hb2 : (pid == "") = false := by simp [hp2]
      simp [subsOnlyEffective, hb1, hb2]
  refine ⟨hso, ?_, ?_⟩
  · simp [audioFilterApplied, hso]
  · intro p real sent
    rw [synthLoop_edl_map]
    simp

/-- Witness for C10: EDL requested with empty Plex fields. -/
theorem claim_edl_plex_force_subs_only_witness :
    subsOnlyEffective false true "" "" = true
    ∧ audioFilterApplied (subsOnlyEffective false true "" "") 3 = false :=
  ⟨(claim_edl_plex_force_subs_only false true "" "" 3 (Or.inl rfl)).1,
    (claim_edl_plex_force_subs_only false true "" "" 3 (Or.inl rfl)).2.1⟩

end Cleanvid
